import Mathlib

/-!
Verification of the aggregation logic of a livestock-disease statistics
dashboard (streamlit_app.py).  The table loaded by the app is embedded as a
`Frame`: a list of rows, each carrying the year-month key, the derived year
and month, the per-region cells (missing cells are `none`, mirroring NaN
after numeric coercion) and the optional total cell; a flag records whether
the total column is present at all.  Every aggregation of the app is
embedded as a pure function over `Frame` values, and the specified
properties are proved about those functions.
-/

namespace LivestockStat

/-- One row of the loaded table: the year-month key `ym`, the derived
`year` and `month` fields, the region cells `vals` (an association list
from region name to an optional count, `none` standing for NaN) and the
optional total cell. -/
structure Row where
  ym : Int
  year : Int
  month : Int
  vals : List (String × Option Int)
  total : Option Int
deriving Repr, DecidableEq

/-- The cell of row `r` in region column `c`: `none` when the column is not
present in the row or the stored value is NaN. -/
def Row.val (r : Row) (c : String) : Option Int :=
  (r.vals.lookup c).getD none

/-- The loaded table: the fixed list of region column names, whether the
total column is present, and the rows. -/
structure Frame where
  regionsAll : List String
  hasTotal : Bool
  rows : List Row
deriving Repr, DecidableEq

/-- The pandas row-wise region sum with NaN skipped: missing region values
count as 0 (frame[regions].sum with axis 1). -/
def rowRegionSum (regions : List String) (r : Row) : Int :=
  regions.foldr (fun c acc => (r.val c).getD 0 + acc) 0

/-- Overwrite the total cell of a row with the row-wise region sum; this is
the assignment frame[total] = frame[regions].sum(axis 1). -/
def fixTotal (regions : List String) (r : Row) : Row :=
  { r with total := some (rowRegionSum regions r) }

/-- The test frame[total].isna().all(): every total cell is missing
(vacuously true when there are no rows, exactly as in pandas). -/
def totalAllNa (f : Frame) : Bool :=
  f.rows.all (fun r => r.total.isNone)

/-- ensure_total_col from the source: when the total column is absent, or
every value in it is missing, replace it by the row-wise sum of the region
columns; otherwise return the frame untouched. -/
def ensure_total_col (f : Frame) : Frame :=
  if !f.hasTotal || totalAllNa f then
    { f with hasTotal := true,
             rows := f.rows.map (fixTotal f.regionsAll) }
  else f

/-- Stable insertion of x into l for an ascending sort by key: x lands in
front of the first element whose key is not smaller.  Insertion sort built
on it is the stable ascending sort that numpy argsort performs on the small
arrays handled by this dashboard. -/
def insertLe {α : Type} (key : α → Int) (x : α) : List α → List α
  | [] => [x]
  | y :: ys => if key x ≤ key y then x :: y :: ys else y :: insertLe key x ys

/-- Stable ascending insertion sort by an integer key. -/
def sortByKey {α : Type} (key : α → Int) : List α → List α
  | [] => []
  | x :: xs => insertLe key x (sortByKey key xs)

/-- The one-year slice of the table (df[df[year] == y]). -/
def filterYear (f : Frame) (y : Int) : Frame :=
  { f with rows := f.rows.filter (fun r => r.year == y) }

/-- Sum of the total cells of a row list, NaN counted as 0 (pandas sum
semantics with skipna). -/
def sumTotals (rows : List Row) : Int :=
  (rows.map (fun r => r.total.getD 0)).sum

/-- The groupby(month) group sum of the total column for one month key. -/
def monthSum (rows : List Row) (m : Int) : Int :=
  sumTotals (rows.filter (fun r => r.month == m))

/-- The keys produced by groupby(month): the distinct months present in the
rows, in ascending order. -/
def monthKeys (rows : List Row) : List Int :=
  sortByKey id ((rows.map Row.month).dedup)

/-- groupby(month)[total].sum() as an association list from month key to
group sum. -/
def groupbyMonthSum (rows : List Row) : List (Int × Int) :=
  (monthKeys rows).map (fun m => (m, monthSum rows m))

/-- reindex(range(1, 13), fill_value 0): the series as 12 labelled entries
for months 1..12 in order; a month absent from the groupby result is filled
with 0. -/
def reindex12 (g : List (Int × Int)) : List (Int × Int) :=
  (List.range 12).map
    (fun (i : Nat) => (((i : Int) + 1), (g.lookup ((i : Int) + 1)).getD 0))

/-- monthly_total from the source: ensure the total column on the one-year
slice, group the totals by month, and reindex onto months 1..12 with zero
fill. -/
def monthly_total (f : Frame) (y : Int) : List (Int × Int) :=
  reindex12 (groupbyMonthSum (ensure_total_col (filterYear f y)).rows)

/-- ytd from the source: monthly_total.loc[1:m].sum(), the label slice of
the reindexed series from month 1 to month m inclusive, summed. -/
def ytd (f : Frame) (y m : Int) : Int :=
  (((monthly_total f y).filter (fun p => 1 ≤ p.1 && p.1 ≤ m)).map Prod.snd).sum

/-- The membership test (year - 1) in df[year].unique(). -/
def prevYearExists (f : Frame) (y : Int) : Bool :=
  f.rows.any (fun r => r.year == y - 1)

/-- The year-over-year YTD comparison: a delta is produced only when the
previous year occurs somewhere in the dataset, otherwise it is absent
(delta_str = None in the source). -/
def ytd_delta (f : Frame) (y m : Int) : Option Int :=
  if prevYearExists f y then some (ytd f y m - ytd f (y - 1) m) else none

/-- Specification-side month aggregate: the sum of the total cells over all
records of one (year, month), read directly off the dataset; a month with
no records gives the empty sum 0. -/
def specMonthSum (f : Frame) (y m : Int) : Int :=
  ((f.rows.filter (fun r => r.year == y && r.month == m)).map
    (fun r => r.total.getD 0)).sum

/-- The all-zero synthetic row substituted when the selected (year, month)
has no matching record: every region value and the total are 0. -/
def zeroRow (f : Frame) (y m : Int) : Row :=
  { ym := y * 100 + m, year := y, month := m,
    vals := f.regionsAll.map (fun c => (c, some 0)), total := some 0 }

/-- The rows of the dataset matching the selected (year, month). -/
def matchRows (f : Frame) (y m : Int) : List Row :=
  f.rows.filter (fun r => r.year == y && r.month == m)

/-- df_selected from the source: the matching rows, or the all-zero
synthetic row when there is no match. -/
def df_selected (f : Frame) (y m : Int) : List Row :=
  if (matchRows f y m).isEmpty then [zeroRow f y m] else matchRows f y m

/-- total_cases from the source: the sum of the total column over the
selected rows. -/
def total_cases (f : Frame) (y m : Int) : Int :=
  sumTotals (df_selected f y m)

/-- df_selected[regions].sum().fillna(0): the per-region sums over the
selected rows, one labelled entry per selected region in the given order,
NaN counted as 0. -/
def region_sums (rows : List Row) (regions : List String) : List (String × Int) :=
  regions.map (fun c => (c, (rows.map (fun r => (r.val c).getD 0)).sum))

/-- Series.idxmax keeps the first entry attaining the running maximum: a
later entry replaces the current best only when strictly greater. -/
def idxmaxGo (best : String × Int) : List (String × Int) → String × Int
  | [] => best
  | p :: rest => if best.2 < p.2 then idxmaxGo p rest else idxmaxGo best rest

/-- Series.idxmax paired with the attained maximum value; none on the empty
series, where pandas raises instead. -/
def idxmaxP : List (String × Int) → Option (String × Int)
  | [] => none
  | p :: rest => some (idxmaxGo p rest)

/-- Series.idxmin analogue of idxmaxGo. -/
def idxminGo (best : String × Int) : List (String × Int) → String × Int
  | [] => best
  | p :: rest => if p.2 < best.2 then idxminGo p rest else idxminGo best rest

/-- Series.idxmin paired with the attained minimum value; none on the empty
series. -/
def idxminP : List (String × Int) → Option (String × Int)
  | [] => none
  | p :: rest => some (idxminGo p rest)

/-- sort_values(by count, ascending False) as pandas nargsort implements
it: reverse the entries, argsort ascending (stable on the small arrays this
dashboard handles), and reverse the resulting order. -/
def sort_values_desc (l : List (String × Int)) : List (String × Int) :=
  (sortByKey (fun p => p.2) l.reverse).reverse

/-- top_regions from the source: sort the labelled region sums by count
descending and keep the first n labels (head(5) in the source, with
n = 5). -/
def top_regions (sums : List (String × Int)) (n : Nat) : List String :=
  ((sort_values_desc sums).take n).map Prod.fst

/-- region_max from the source: region_sums.idxmax(). -/
def region_max (sums : List (String × Int)) : Option String :=
  (idxmaxP sums).map Prod.fst

/-- Outcome of the key-metrics block: the empty-selection advisory, the
max/min region metrics, or the fault pandas would raise on an empty
series. -/
inductive MetricsOutcome where
  | advisory : MetricsOutcome
  | metrics : String → Int → String → Int → MetricsOutcome
  | fault : MetricsOutcome
deriving Repr, DecidableEq

/-- The key-metrics block of the source: an advisory when no region is
selected, otherwise the idxmax/idxmin metrics with their values over the
selected rows. -/
def key_metrics (f : Frame) (y m : Int) (regions : List String) : MetricsOutcome :=
  if regions.isEmpty then MetricsOutcome.advisory
  else
    match idxmaxP (region_sums (df_selected f y m) regions),
        idxminP (region_sums (df_selected f y m) regions) with
    | some mx, some mn => MetricsOutcome.metrics mx.1 mx.2 mn.1 mn.2
    | _, _ => MetricsOutcome.fault

/-- One cell of the heatmap pipeline: melting the one-year slice to
(month, region, value) triples and group-summing makes the (region, month)
cell the sum of that region's values over the rows of that month, NaN as 0;
a (month, region) pair absent from the source is reindexed to 0, which is
again the empty sum. -/
def heatmap_cell (rows : List Row) (c : String) (m : Int) : Int :=
  ((rows.filter (fun r => r.month == m)).map (fun r => (r.val c).getD 0)).sum

/-- heatmap_data from the source: for the ensured one-year slice, the
region-by-month matrix with one row of 12 month cells per selected
region. -/
def heatmap_data (f : Frame) (y : Int) (regions : List String) :
    List (String × List Int) :=
  regions.map (fun c => (c,
    (List.range 12).map
      (fun (i : Nat) =>
        heatmap_cell (ensure_total_col (filterYear f y)).rows c ((i : Int) + 1))))

/-- The heatmap block with its guard: absent when no region is selected
(the advisory path of the source), otherwise the built matrix. -/
def heatmap_block (f : Frame) (y : Int) (regions : List String) :
    Option (List (String × List Int)) :=
  if regions.isEmpty then none else some (heatmap_data f y regions)

/-- The top-ranking block with its guard: absent when no region is
selected, otherwise the top-5 ranking. -/
def top_block (f : Frame) (y m : Int) (regions : List String) : Option (List String) :=
  if regions.isEmpty then none
  else some (top_regions (region_sums (df_selected f y m) regions) 5)

/-- Specification-side heatmap cell: the sum of one region's values over
all records of one (year, month), read directly off the dataset. -/
def specRegionMonthSum (f : Frame) (y : Int) (c : String) (m : Int) : Int :=
  ((f.rows.filter (fun r => r.year == y && r.month == m)).map
    (fun r => (r.val c).getD 0)).sum

/-- Concrete dataset for the ranking example: one selected record with
region sums A 5, B 5, C 3, regions in the order A, B, C. -/
def exRankFrame : Frame :=
  { regionsAll := ["A", "B", "C"], hasTotal := true,
    rows := [{ ym := 202503, year := 2025, month := 3,
               vals := [("A", some 5), ("B", some 5), ("C", some 3)],
               total := some 13 }] }

/-- The region sums of the ranking example in input order A, B, C. -/
def exRankSums : List (String × Int) :=
  region_sums (df_selected exRankFrame 2025 3) ["A", "B", "C"]

/-- Concrete dataset with two rows sharing the same year-month, for the
duplicate-tolerance witnesses. -/
def exDupFrame : Frame :=
  { regionsAll := ["A", "B"], hasTotal := true,
    rows := [{ ym := 202403, year := 2024, month := 3,
               vals := [("A", some 1), ("B", some 2)], total := some 3 },
             { ym := 202403, year := 2024, month := 3,
               vals := [("A", some 4), ("B", none)], total := some 4 }] }

/-- Concrete dataset for witnesses: year 2024 has records only for months 3
and 7, with totals 10 and 20. -/
def exTrendFrame : Frame :=
  { regionsAll := ["A"], hasTotal := true,
    rows := [{ ym := 202403, year := 2024, month := 3,
               vals := [("A", some 10)], total := some 10 },
             { ym := 202407, year := 2024, month := 7,
               vals := [("A", some 20)], total := some 20 }] }

end LivestockStat

namespace LivestockStat

theorem val_fixTotal (regions : List String) (r : Row) (c : String) :
    (fixTotal regions r).val c = r.val c := rfl

theorem rowRegionSum_fixTotal (regions rg : List String) (r : Row) :
    rowRegionSum rg (fixTotal regions r) = rowRegionSum rg r := rfl

theorem fixTotal_fixTotal (regions : List String) (r : Row) :
    fixTotal regions (fixTotal regions r) = fixTotal regions r := rfl

theorem totalAllNa_iff (f : Frame) :
    totalAllNa f = true ↔ ∀ r ∈ f.rows, r.total = none := by
  simp [totalAllNa, List.all_eq_true, Option.isNone_iff_eq_none]

theorem ensure_total_col_fixed (rs : List String) (l : List Row) :
    ensure_total_col ⟨rs, true, l.map (fixTotal rs)⟩
      = ⟨rs, true, l.map (fixTotal rs)⟩ := by
  unfold ensure_total_col
  by_cases h2 : totalAllNa ⟨rs, true, l.map (fixTotal rs)⟩ = true
  · simp only [h2, Bool.not_true, Bool.false_or, if_pos]
    have hmap : (l.map (fixTotal rs)).map (fixTotal rs) = l.map (fixTotal rs) := by
      rw [List.map_map]
      exact List.map_congr_left (fun r _ => fixTotal_fixTotal rs r)
    simpa using hmap
  · simp [h2]

/-- Claim C2: TotalColumnEnsurer is idempotent: applying ensure_total_col
twice yields the same frame (in particular the same total-column values) as
applying it once, for every input frame, including frames with no rows or
no total column. -/
theorem C2_ensure_total_col_idempotent (f : Frame) :
    ensure_total_col (ensure_total_col f) = ensure_total_col f := by
  by_cases h : (!f.hasTotal || totalAllNa f) = true
  · have h1 : ensure_total_col f
        = ⟨f.regionsAll, true, f.rows.map (fixTotal f.regionsAll)⟩ := by
      simp [ensure_total_col, h]
    rw [h1, ensure_total_col_fixed]
  · have h1 : ensure_total_col f = f := by simp [ensure_total_col, h]
    rw [h1, h1]

/-- Claim C6: Conditional replacement rule of TotalColumnEnsurer: the total
column is replaced by the row-wise sum of region columns (missing region
values counted as 0) exactly when the column is absent or every value in it
is missing; otherwise the frame is left completely untouched, even when
individual total entries are missing. -/
theorem C6_total_replacement_rule (f : Frame) :
    ((f.hasTotal = false ∨ ∀ r ∈ f.rows, r.total = none) →
      (ensure_total_col f).hasTotal = true ∧
      (ensure_total_col f).rows.map Row.total
        = f.rows.map (fun r => some (rowRegionSum f.regionsAll r))) ∧
    ((f.hasTotal = true ∧ ∃ r ∈ f.rows, r.total ≠ none) →
      ensure_total_col f = f) := by
  constructor
  · intro h
    have hcond : (!f.hasTotal || totalAllNa f) = true := by
      rcases h with h | h
      · simp [h]
      · simp [totalAllNa_iff f |>.mpr h]
    simp [ensure_total_col, hcond, List.map_map]
    exact fun a _ => rfl
  · rintro ⟨h1, r, hr, hne⟩
    have hna : totalAllNa f = false := by
      rcases hx : totalAllNa f with _ | _
      · rfl
      · exact absurd (totalAllNa_iff f |>.mp hx r hr) hne
    simp [ensure_total_col, h1, hna]

theorem lookup_keyed_map {κ ν : Type} [BEq κ] [LawfulBEq κ] (g : κ → ν) (k : κ) :
    ∀ keys : List κ, (keys.map (fun x => (x, g x))).lookup k
      = if k ∈ keys then some (g k) else none
  | [] => by simp
  | x :: keys => by
    by_cases h : k = x
    · subst h; simp [List.lookup]
    · have hne : (k == x) = false := by simp [h]
      simp [List.lookup, hne, h, lookup_keyed_map g k keys]

theorem mem_insertLe {α : Type} (key : α → Int) (x a : α) :
    ∀ l : List α, a ∈ insertLe key x l ↔ a ∈ x :: l
  | [] => by simp [insertLe]
  | y :: ys => by
    by_cases h : key x ≤ key y
    · simp [insertLe, h]
    · simp only [insertLe, if_neg h, List.mem_cons, mem_insertLe key x a ys]
      tauto

theorem mem_sortByKey {α : Type} (key : α → Int) (a : α) :
    ∀ l : List α, a ∈ sortByKey key l ↔ a ∈ l
  | [] => Iff.rfl
  | x :: xs => by
    simp [sortByKey, mem_insertLe, mem_sortByKey key a xs]

theorem monthKeys_mem (rows : List Row) (m : Int) :
    m ∈ monthKeys rows ↔ ∃ r ∈ rows, r.month = m := by
  simp [monthKeys, mem_sortByKey, List.mem_dedup, eq_comm]

theorem lookup_groupby (rows : List Row) (m : Int) :
    ((groupbyMonthSum rows).lookup m).getD 0 = monthSum rows m := by
  rw [groupbyMonthSum, lookup_keyed_map]
  by_cases h : m ∈ monthKeys rows
  · simp [h]
  · have hnil : rows.filter (fun r => r.month == m) = [] := by
      rw [List.filter_eq_nil_iff]
      intro r hr
      simp only [beq_iff_eq]
      intro hm
      exact h ((monthKeys_mem rows m).mpr ⟨r, hr, hm⟩)
    simp [h, monthSum, sumTotals, hnil]

theorem reindex12_getD (g : List (Int × Int)) (i : Nat) (hi : i < 12)
    (d : Int × Int) :
    (reindex12 g).getD i d = (((i : Int) + 1), (g.lookup ((i : Int) + 1)).getD 0) := by
  rw [reindex12, List.getD_eq_getElem?_getD, List.getElem?_map, List.getElem?_range hi]
  rfl

theorem reindex12_length (g : List (Int × Int)) : (reindex12 g).length = 12 := by
  simp [reindex12]

theorem ensure_rows_of_nil (fr : Frame) (h : fr.rows = []) :
    (ensure_total_col fr).rows = [] := by
  unfold ensure_total_col
  by_cases hc : (!fr.hasTotal || totalAllNa fr) = true
  · simp [hc, h]
  · simp [hc, h]

theorem monthSum_ensure_slice (f : Frame) (y : Int) (hT : f.hasTotal = true)
    (hS : ∀ r ∈ f.rows, r.year = y → r.total ≠ none) (m : Int) :
    monthSum (ensure_total_col (filterYear f y)).rows m = specMonthSum f y m := by
  by_cases hc : (!(filterYear f y).hasTotal || totalAllNa (filterYear f y)) = true
  · have hft : (filterYear f y).hasTotal = true := hT
    rw [hft] at hc
    simp only [Bool.not_true, Bool.false_or] at hc
    have hempty : (filterYear f y).rows = [] := by
      rcases h' : (filterYear f y).rows with _ | ⟨r, rest⟩
      · rfl
      · exfalso
        have hrmem : r ∈ (filterYear f y).rows := by
          rw [h']; exact List.mem_cons_self r rest
        have hmem : r ∈ f.rows ∧ r.year = y := by
          have := List.mem_filter.mp hrmem
          exact ⟨this.1, by simpa using this.2⟩
        exact hS r hmem.1 hmem.2 ((totalAllNa_iff _).mp hc r hrmem)
    have hnil : f.rows.filter (fun r => r.year == y && r.month == m) = [] := by
      rw [List.filter_eq_nil_iff]
      intro r hr
      have : ¬(r.year == y) = true := by
        intro hy
        have : r ∈ (filterYear f y).rows := List.mem_filter.mpr ⟨hr, hy⟩
        rw [hempty] at this
        exact absurd this (List.not_mem_nil r)
      simp only [Bool.and_eq_true, not_and]
      exact fun hy => absurd hy this
    rw [ensure_rows_of_nil _ hempty]
    simp [monthSum, sumTotals, specMonthSum, hnil]
  · have hid : ensure_total_col (filterYear f y) = filterYear f y := by
      simp [ensure_total_col, hc]
    rw [hid]
    simp [monthSum, specMonthSum, filterYear, sumTotals, List.filter_filter, Bool.and_comm]

/-- Claim C3: MonthlySeriesBuilder completeness and zero-fill: for every year
of a dataset whose total column is present and defined on that year, the
built monthly series has exactly 12 entries for months 1..12 in order, and
the entry of month i+1 is the sum of the total measure over all records of
that (year, month); a month with no matching records yields 0 because the
sum over the empty record set is 0. -/
theorem C3_monthly_series_complete (f : Frame) (y : Int) (hT : f.hasTotal = true)
    (hS : ∀ r ∈ f.rows, r.year = y → r.total ≠ none) :
    (monthly_total f y).length = 12 ∧
    ∀ i : Nat, i < 12 →
      (monthly_total f y).getD i (0, 0)
        = (((i : Int) + 1), specMonthSum f y ((i : Int) + 1)) := by
  constructor
  · exact reindex12_length _
  · intro i hi
    rw [monthly_total, reindex12_getD _ i hi, lookup_groupby,
      monthSum_ensure_slice f y hT hS]

/-- Witness for C3: on the concrete dataset where year 2024 has records
only for months 3 and 7 with totals 10 and 20, the theorem applies and the
series built for 2024 is 0,0,10,0,0,0,20,0,0,0,0,0 for months 1..12. -/
theorem C3_monthly_series_complete_witness :
    (monthly_total exTrendFrame 2024).length = 12 ∧
    (monthly_total exTrendFrame 2024).getD 2 (0, 0) = (3, specMonthSum exTrendFrame 2024 3) ∧
    monthly_total exTrendFrame 2024
      = [(1, 0), (2, 0), (3, 10), (4, 0), (5, 0), (6, 0),
         (7, 20), (8, 0), (9, 0), (10, 0), (11, 0), (12, 0)] := by
  refine ⟨(C3_monthly_series_complete exTrendFrame 2024 rfl (by decide)).1, ?_, by decide⟩
  exact (C3_monthly_series_complete exTrendFrame 2024 rfl (by decide)).2 2 (by decide)

theorem range_filter_lt (k : Nat) :
    ∀ n : Nat, (List.range n).filter (fun i => decide (i < k)) = List.range (min k n)
  | 0 => by simp
  | n + 1 => by
    rw [List.range_succ, List.filter_append, range_filter_lt k n]
    by_cases h : n < k
    · have h1 : min k n = n := by omega
      have h2 : min k (n + 1) = n + 1 := by omega
      simp [h, h1, h2, List.range_succ]
    · have h1 : min k n = k := by omega
      have h2 : min k (n + 1) = k := by omega
      simp [h, h1, h2]

theorem reindex12_filter_take (g : List (Int × Int)) (m : Int) :
    (reindex12 g).filter (fun p => 1 ≤ p.1 && p.1 ≤ m)
      = (reindex12 g).take m.toNat := by
  unfold reindex12
  rw [List.filter_map, ← List.map_take, List.take_range]
  have hfun : ((fun (p : Int × Int) => 1 ≤ p.1 && p.1 ≤ m) ∘
      (fun (i : Nat) => (((i : Int) + 1), (g.lookup ((i : Int) + 1)).getD 0)))
      = fun (i : Nat) => decide (i < m.toNat) := by
    funext i
    simp only [Function.comp]
    rw [Bool.eq_iff_iff]
    simp only [Bool.and_eq_true, decide_eq_true_eq]
    omega
  rw [hfun, range_filter_lt]

theorem ytd_eq_take (f : Frame) (y m : Int) :
    ytd f y m = (((monthly_total f y).map Prod.snd).take m.toNat).sum := by
  rw [ytd, monthly_total, reindex12_filter_take, ← List.map_take]

theorem monthly_total_of_no_year (f : Frame) (y : Int)
    (hno : ∀ r ∈ f.rows, r.year ≠ y) :
    monthly_total f y = reindex12 [] := by
  have hslice : (filterYear f y).rows = [] := by
    simp only [filterYear]
    rw [List.filter_eq_nil_iff]
    intro r hr
    simpa using hno r hr
  rw [monthly_total, ensure_rows_of_nil _ hslice]
  simp [groupbyMonthSum, monthKeys, sortByKey]

theorem reindex12_nil_mem (p : Int × Int) (hp : p ∈ reindex12 []) : p.2 = 0 := by
  simp only [reindex12, List.mem_map] at hp
  obtain ⟨i, _, hi⟩ := hp
  rw [← hi]
  rfl

/-- Claim C4: YearToDateCalculator: for every year and cutoff month m in
1..12, ytd equals the sum of the monthly series entries for months 1
through m inclusive; and when the target year has no records at all, every
series entry is 0 and ytd is 0. -/
theorem C4_ytd_cutoff (f : Frame) (y m : Int) (h1 : 1 ≤ m) (h2 : m ≤ 12) :
    ytd f y m = (((monthly_total f y).map Prod.snd).take m.toNat).sum ∧
    ((∀ r ∈ f.rows, r.year ≠ y) →
      (∀ p ∈ monthly_total f y, p.2 = 0) ∧ ytd f y m = 0) := by
  refine ⟨ytd_eq_take f y m, fun hno => ?_⟩
  have hmt := monthly_total_of_no_year f y hno
  constructor
  · intro p hp
    rw [hmt] at hp
    exact reindex12_nil_mem p hp
  · rw [ytd, hmt]
    apply List.sum_eq_zero
    intro x hx
    obtain ⟨p, hp, hx2⟩ := List.mem_map.mp hx
    rw [← hx2]
    exact reindex12_nil_mem p (List.mem_filter.mp hp).1

/-- Witness for C4: on the months-3-and-7 dataset the cutoff-7 YTD is the
sum of the first seven series entries, namely 30; and for year 2030, which
has no records, every series entry is 0 and ytd is 0. -/
theorem C4_ytd_cutoff_witness :
    ytd exTrendFrame 2024 7
        = (((monthly_total exTrendFrame 2024).map Prod.snd).take (7 : Int).toNat).sum ∧
    ytd exTrendFrame 2024 7 = 30 ∧
    (∀ p ∈ monthly_total exTrendFrame 2030, p.2 = 0) ∧
    ytd exTrendFrame 2030 5 = 0 := by
  refine ⟨(C4_ytd_cutoff exTrendFrame 2024 7 (by decide) (by decide)).1, by decide, ?_⟩
  exact (C4_ytd_cutoff exTrendFrame 2030 5 (by decide) (by decide)).2 (by decide)

/-- Claim C5: YTD delta absence: when year y-1 has no records anywhere in the
dataset, the year-over-year comparison produces no delta value (absent, not
zero); when y-1 has any record, the delta is ytd minus the previous-year
ytd computed with the same cutoff month over the zero-filled series. -/
theorem C5_delta_absence (f : Frame) (y m : Int) :
    ((∀ r ∈ f.rows, r.year ≠ y - 1) → ytd_delta f y m = none) ∧
    ((∃ r ∈ f.rows, r.year = y - 1) →
      ytd_delta f y m = some (ytd f y m - ytd f (y - 1) m)) := by
  constructor
  · intro h
    have hpe : prevYearExists f y = false := by
      rcases hx : prevYearExists f y with _ | _
      · rfl
      · obtain ⟨r, hr, hb⟩ := List.any_eq_true.mp hx
        exact absurd (by simpa using hb) (h r hr)
    simp [ytd_delta, hpe]
  · rintro ⟨r, hr, hy⟩
    have hpe : prevYearExists f y = true :=
      List.any_eq_true.mpr ⟨r, hr, by simp [hy]⟩
    simp [ytd_delta, hpe]

/-- Witness for C5: for year 2024 (no 2023 records) no delta is produced;
for year 2025 (2024 has records) the delta is the difference of the two
cutoff-7 YTD sums. -/
theorem C5_delta_absence_witness :
    ytd_delta exTrendFrame 2024 7 = none ∧
    ytd_delta exTrendFrame 2025 7
      = some (ytd exTrendFrame 2025 7 - ytd exTrendFrame 2024 7) := by
  refine ⟨(C5_delta_absence exTrendFrame 2024 7).1 (by decide), ?_⟩
  exact (C5_delta_absence exTrendFrame 2025 7).2 (by decide)

/-- Witness for C6 on concrete frames: a frame whose total column is wholly
missing gets region sums, and a frame with one present total entry is left
untouched. -/
theorem C6_total_replacement_rule_witness :
    (ensure_total_col
        { regionsAll := ["A", "B"], hasTotal := true,
          rows := [{ ym := 202401, year := 2024, month := 1,
                     vals := [("A", some 2), ("B", none)],
                     total := none }] }).rows.map Row.total = [some 2] ∧
    ensure_total_col
        { regionsAll := ["A"], hasTotal := true,
          rows := [{ ym := 202401, year := 2024, month := 1,
                     vals := [("A", some 2)], total := some 9 },
                   { ym := 202402, year := 2024, month := 2,
                     vals := [("A", some 3)], total := none }] }
      = { regionsAll := ["A"], hasTotal := true,
          rows := [{ ym := 202401, year := 2024, month := 1,
                     vals := [("A", some 2)], total := some 9 },
                   { ym := 202402, year := 2024, month := 2,
                     vals := [("A", some 3)], total := none }] } := by
  constructor
  · have h := (C6_total_replacement_rule
      { regionsAll := ["A", "B"], hasTotal := true,
        rows := [{ ym := 202401, year := 2024, month := 1,
                   vals := [("A", some 2), ("B", none)],
                   total := none }] }).1 (by simp)
    rw [h.2]
    decide
  · exact (C6_total_replacement_rule _).2 (by refine ⟨rfl, ?_⟩; simp)

theorem lookup_const_zero (c : String) :
    ∀ keys : List String, c ∈ keys →
      (keys.map (fun x => (x, some (0 : Int)))).lookup c = some (some 0)
  | [], hc => by simp at hc
  | x :: keys, hc => by
    by_cases h : c = x
    · subst h; simp [List.lookup]
    · have hne : (c == x) = false := by simp [h]
      have hmem : c ∈ keys := by
        rcases List.mem_cons.mp hc with h1 | h1
        · exact absurd h1 h
        · exact h1
      simp [List.lookup, hne, lookup_const_zero c keys hmem]

theorem zeroRow_val (f : Frame) (y m : Int) (c : String) (hc : c ∈ f.regionsAll) :
    (zeroRow f y m).val c = some 0 := by
  rw [zeroRow, Row.val]
  simp only []
  rw [lookup_const_zero c f.regionsAll hc]
  rfl

/-- Claim C7: Synthetic record substitution: for every selected (year, month)
with no matching record, aggregation proceeds on the substituted all-zero
synthetic record, so the displayed total is 0 and every per-region sum over
the selected regions is 0, with no error path. -/
theorem C7_synthetic_record (f : Frame) (y m : Int)
    (hno : ∀ r ∈ f.rows, ¬(r.year = y ∧ r.month = m)) :
    df_selected f y m = [zeroRow f y m] ∧
    total_cases f y m = 0 ∧
    ∀ rs : List String, (∀ c ∈ rs, c ∈ f.regionsAll) →
      ∀ p ∈ region_sums (df_selected f y m) rs, p.2 = 0 := by
  have hmatch : matchRows f y m = [] := by
    rw [matchRows, List.filter_eq_nil_iff]
    intro r hr
    simp only [Bool.and_eq_true, beq_iff_eq, not_and]
    exact fun h1 h2 => hno r hr ⟨h1, h2⟩
  have hsel : df_selected f y m = [zeroRow f y m] := by
    simp [df_selected, hmatch]
  refine ⟨hsel, ?_, ?_⟩
  · rw [total_cases, hsel]
    simp [sumTotals, zeroRow]
  · intro rs hrs p hp
    rw [hsel] at hp
    simp only [region_sums, List.mem_map] at hp
    obtain ⟨c, hc, hpc⟩ := hp
    rw [← hpc]
    simp [zeroRow_val f y m c (hrs c hc)]

/-- Witness for C7: the months-3-and-7 dataset has no record for month 5 of
2024, so the selection is the all-zero synthetic row, the total is 0 and
the region sum of the selected region A is 0. -/
theorem C7_synthetic_record_witness :
    df_selected exTrendFrame 2024 5 = [zeroRow exTrendFrame 2024 5] ∧
    total_cases exTrendFrame 2024 5 = 0 ∧
    ∀ p ∈ region_sums (df_selected exTrendFrame 2024 5) ["A"], p.2 = 0 := by
  have h := C7_synthetic_record exTrendFrame 2024 5 (by decide)
  exact ⟨h.1, h.2.1, h.2.2 ["A"] (by decide)⟩

theorem perm_insertLe {α : Type} (key : α → Int) (x : α) :
    ∀ l : List α, (insertLe key x l).Perm (x :: l)
  | [] => List.Perm.refl _
  | y :: ys => by
    rw [insertLe]
    by_cases h : key x ≤ key y
    · rw [if_pos h]
    · rw [if_neg h]
      exact ((perm_insertLe key x ys).cons y).trans (List.Perm.swap x y ys)

theorem perm_sortByKey {α : Type} (key : α → Int) :
    ∀ l : List α, (sortByKey key l).Perm l
  | [] => List.Perm.refl _
  | x :: xs =>
    (perm_insertLe key x (sortByKey key xs)).trans ((perm_sortByKey key xs).cons x)

theorem pairwise_insertLe {α : Type} (key : α → Int) (x : α) :
    ∀ l : List α, l.Pairwise (fun a b => key a ≤ key b) →
      (insertLe key x l).Pairwise (fun a b => key a ≤ key b)
  | [], _ => by simp [insertLe]
  | y :: ys, hp => by
    rw [insertLe]
    have hy := List.pairwise_cons.mp hp
    by_cases h : key x ≤ key y
    · rw [if_pos h]
      refine List.Pairwise.cons ?_ hp
      intro b hb
      rcases List.mem_cons.mp hb with h1 | h1
      · exact h1 ▸ h
      · exact le_trans h (hy.1 b h1)
    · rw [if_neg h]
      refine List.Pairwise.cons ?_ (pairwise_insertLe key x ys hy.2)
      intro b hb
      rcases List.mem_cons.mp ((mem_insertLe key x b ys).mp hb) with h1 | h1
      · exact h1 ▸ (not_le.mp h).le
      · exact hy.1 b h1

theorem pairwise_sortByKey {α : Type} (key : α → Int) :
    ∀ l : List α, (sortByKey key l).Pairwise (fun a b => key a ≤ key b)
  | [] => List.Pairwise.nil
  | x :: xs => pairwise_insertLe key x _ (pairwise_sortByKey key xs)

theorem filter_insertLe {α : Type} (key : α → Int) (x : α) (v : Int) :
    ∀ l : List α, (insertLe key x l).filter (fun a => key a == v)
      = ((x :: l).filter (fun a => key a == v))
  | [] => rfl
  | y :: ys => by
    rw [insertLe]
    by_cases h : key x ≤ key y
    · rw [if_pos h]
    · rw [if_neg h]
      by_cases hyv : (key y == v) = true
      · have hxv : (key x == v) = false := by
          have hlt : key y < key x := not_le.mp h
          have hy : key y = v := by simpa using hyv
          simp only [beq_eq_false_iff_ne, ne_eq]
          intro hx
          rw [hx, ← hy] at hlt
          exact lt_irrefl _ hlt
        simp [List.filter_cons, hyv, hxv, filter_insertLe key x v ys]
      · have hyv0 : (key y == v) = false := by
          rcases hx : (key y == v) with _ | _
          · rfl
          · exact absurd hx hyv
        simp [List.filter_cons, hyv0, filter_insertLe key x v ys]

theorem filter_sortByKey {α : Type} (key : α → Int) (v : Int) :
    ∀ l : List α, (sortByKey key l).filter (fun a => key a == v)
      = l.filter (fun a => key a == v)
  | [] => rfl
  | x :: xs => by
    rw [sortByKey, filter_insertLe, List.filter_cons, List.filter_cons,
      filter_sortByKey key v xs]

theorem idxmaxGo_find :
    ∀ (l : List (String × Int)) (b : String × Int),
      (b :: l).find? (fun p => (b :: l).all (fun q => q.2 ≤ p.2))
        = some (idxmaxGo b l)
  | [], b => by simp [idxmaxGo, List.find?]
  | q :: rest, b => by
    rw [idxmaxGo]
    by_cases h : b.2 < q.2
    · rw [if_pos h]
      have hpred : (fun p : String × Int => (b :: q :: rest).all (fun r => r.2 ≤ p.2))
          = fun p => (q :: rest).all (fun r => r.2 ≤ p.2) := by
        funext p
        rw [Bool.eq_iff_iff]
        simp only [List.all_cons, Bool.and_eq_true, decide_eq_true_eq]
        constructor
        · rintro ⟨_, h2, h3⟩; exact ⟨h2, h3⟩
        · rintro ⟨h2, h3⟩; exact ⟨le_trans h.le h2, h2, h3⟩
      rw [hpred]
      have hb : ((q :: rest).all (fun r => decide (r.2 ≤ b.2))) = false := by
        have hq : ¬ (q.2 ≤ b.2) := not_le.mpr h
        simp [List.all_cons, hq]
      rw [List.find?_cons]
      simp only [hb]
      exact idxmaxGo_find rest q
    · rw [if_neg h]
      have hqb : q.2 ≤ b.2 := not_lt.mp h
      have hpred : (fun p : String × Int => (b :: q :: rest).all (fun r => r.2 ≤ p.2))
          = fun p => (b :: rest).all (fun r => r.2 ≤ p.2) := by
        funext p
        rw [Bool.eq_iff_iff]
        simp only [List.all_cons, Bool.and_eq_true, decide_eq_true_eq]
        constructor
        · rintro ⟨h1, _, h3⟩; exact ⟨h1, h3⟩
        · rintro ⟨h1, h3⟩; exact ⟨h1, le_trans hqb h1, h3⟩
      rw [hpred]
      have IH := idxmaxGo_find rest b
      by_cases hb : ((b :: rest).all (fun r => decide (r.2 ≤ b.2)) = true)
      · rw [List.find?_cons] at IH ⊢
        simp only [hb] at IH ⊢
        exact IH
      · have hb0 : ((b :: rest).all (fun r => decide (r.2 ≤ b.2))) = false := by
          rcases hx : ((b :: rest).all (fun r => decide (r.2 ≤ b.2))) with _ | _
          · rfl
          · exact absurd hx hb
        have hqf : ((b :: rest).all (fun r => decide (r.2 ≤ q.2))) = false := by
          rcases hx : ((b :: rest).all (fun r => decide (r.2 ≤ q.2))) with _ | _
          · rfl
          · -- the all over b :: rest at q gives b.2 ≤ q.2, so q.2 = b.2,
            -- and then the same all at b holds, contradicting hb
            exfalso
            apply hb
            have hbq : b.2 ≤ q.2 := by
              have h3 := List.all_eq_true.mp hx b (List.mem_cons_self b rest)
              simpa using h3
            have heq : q.2 = b.2 := le_antisymm hqb hbq
            rw [← heq]
            exact hx
        rw [List.find?_cons] at IH ⊢
        simp only [hb0] at IH ⊢
        rw [List.find?_cons]
        simp only [hqf]
        exact IH

theorem idxmaxP_find (l : List (String × Int)) :
    idxmaxP l = l.find? (fun p => l.all (fun q => q.2 ≤ p.2)) := by
  cases l with
  | nil => rfl
  | cons b rest => exact (idxmaxGo_find rest b).symm

theorem filter_sortByKey_snd (v : Int) (l : List (String × Int)) :
    (sortByKey (fun p => p.2) l).filter (fun p => p.2 == v)
      = l.filter (fun p => p.2 == v) :=
  filter_sortByKey (fun p => p.2) v l

/-- Claim C1: RegionAggregator ranking tie-break: over the region sums taken
in the given region order, the descending sort used by topN is a
permutation of the sums, is sorted by summed value descending, and is
stable (for every value v the entries of value v keep their original
relative order, i.e. ties are broken by the original region-subset order);
topN(n) is its n-entry truncation projected to region labels, and maxRegion
is the first region in the given order among those attaining the maximum
sum; in particular for sums A 5, B 5, C 3 in input order A, B, C, topN(2)
is A, B and maxRegion is A. -/
theorem C1_ranking_tiebreak (rows : List Row) (rs : List String) (n : Nat) :
    (sort_values_desc (region_sums rows rs)).Perm (region_sums rows rs) ∧
    (sort_values_desc (region_sums rows rs)).Pairwise (fun p q => q.2 ≤ p.2) ∧
    (∀ v : Int, (sort_values_desc (region_sums rows rs)).filter (fun p => p.2 == v)
        = (region_sums rows rs).filter (fun p => p.2 == v)) ∧
    top_regions (region_sums rows rs) n
        = ((sort_values_desc (region_sums rows rs)).take n).map Prod.fst ∧
    region_max (region_sums rows rs)
        = ((region_sums rows rs).find?
            (fun p => (region_sums rows rs).all (fun q => q.2 ≤ p.2))).map Prod.fst ∧
    top_regions exRankSums 2 = ["A", "B"] ∧
    region_max exRankSums = some "A" := by
  refine ⟨?_, ?_, ?_, rfl, ?_, by decide, by decide⟩
  · rw [sort_values_desc]
    exact (List.reverse_perm _).trans
      ((perm_sortByKey _ _).trans (List.reverse_perm _))
  · rw [sort_values_desc, List.pairwise_reverse]
    exact pairwise_sortByKey (fun p : String × Int => p.2) _
  · intro v
    rw [sort_values_desc, List.filter_reverse, filter_sortByKey_snd,
      List.filter_reverse, List.reverse_reverse]
  · rw [region_max, idxmaxP_find]

theorem heatmap_cell_slice (f : Frame) (y : Int) (c : String) (m : Int) :
    heatmap_cell (filterYear f y).rows c m = specRegionMonthSum f y c m := by
  simp [heatmap_cell, specRegionMonthSum, filterYear, List.filter_filter,
    Bool.and_comm]

theorem heatmap_cell_map_fix (rg : List String) (rows : List Row) (c : String)
    (m : Int) :
    heatmap_cell (rows.map (fixTotal rg)) c m = heatmap_cell rows c m := by
  rw [heatmap_cell, heatmap_cell, List.filter_map, List.map_map]
  rfl

theorem heatmap_cell_ensure (f : Frame) (y : Int) (c : String) (m : Int) :
    heatmap_cell (ensure_total_col (filterYear f y)).rows c m
      = specRegionMonthSum f y c m := by
  by_cases hc : (!(filterYear f y).hasTotal || totalAllNa (filterYear f y)) = true
  · have hrows : (ensure_total_col (filterYear f y)).rows
        = (filterYear f y).rows.map (fixTotal (filterYear f y).regionsAll) := by
      simp [ensure_total_col, hc]
    rw [hrows, heatmap_cell_map_fix, heatmap_cell_slice]
  · have hid : ensure_total_col (filterYear f y) = filterYear f y := by
      simp [ensure_total_col, hc]
    rw [hid, heatmap_cell_slice]

/-- Claim C8: HeatmapMatrixBuilder shape and zero-fill: for every year and
non-empty region subset, the matrix has exactly one row per region of the
subset in order, each row has exactly 12 month cells for months 1..12, and
the cell of region c and month i+1 is the integer sum of that region's
values over all source records of that (year, month) — so a (month, region)
pair absent from the source gives the empty sum 0, and duplicate
(year, month) source rows are summed rather than overwritten. -/
theorem C8_heatmap_shape (f : Frame) (y : Int) (rs : List String)
    (hne : rs ≠ []) :
    (heatmap_data f y rs).map Prod.fst = rs ∧
    ∀ p ∈ heatmap_data f y rs,
      p.2.length = 12 ∧
      p.2 = (List.range 12).map
        (fun (i : Nat) => specRegionMonthSum f y p.1 ((i : Int) + 1)) := by
  constructor
  · simp only [heatmap_data, List.map_map]
    exact (List.map_congr_left (fun c _ => rfl)).trans (List.map_id rs)
  · intro p hp
    simp only [heatmap_data, List.mem_map] at hp
    obtain ⟨c, hc, hpc⟩ := hp
    rw [← hpc]
    refine ⟨by simp, ?_⟩
    exact List.map_congr_left (fun i _ => heatmap_cell_ensure f y c ((i : Int) + 1))

/-- Witness for C8: on the months-3-and-7 dataset with region subset A, the
matrix has the single region row A with 12 numeric cells, equal to the
zero-filled sums 0,0,10,0,0,0,20,0,0,0,0,0. -/
theorem C8_heatmap_shape_witness :
    (heatmap_data exTrendFrame 2024 ["A"]).map Prod.fst = ["A"] ∧
    (∀ p ∈ heatmap_data exTrendFrame 2024 ["A"], p.2.length = 12) ∧
    heatmap_data exTrendFrame 2024 ["A"]
      = [("A", [0, 0, 10, 0, 0, 0, 20, 0, 0, 0, 0, 0])] := by
  have h := C8_heatmap_shape exTrendFrame 2024 ["A"] (by decide)
  exact ⟨h.1, fun p hp => (h.2 p hp).1, by decide⟩

/-- Claim C9: Empty-region guard: for every dataset and selection, the
key-metrics, heatmap and top-ranking blocks never reach the fault path of
an empty-series idxmax or an empty matrix; the empty region subset is
detected up front and surfaced as the distinct advisory outcome with no
aggregate computed, while a non-empty subset always produces the computed
metrics, matrix and ranking. -/
theorem C9_empty_region_guard (f : Frame) (y m : Int) (rs : List String) :
    key_metrics f y m rs ≠ MetricsOutcome.fault ∧
    (rs = [] → key_metrics f y m rs = MetricsOutcome.advisory ∧
      heatmap_block f y rs = none ∧ top_block f y m rs = none) ∧
    (rs ≠ [] →
      (∃ a v b w, key_metrics f y m rs = MetricsOutcome.metrics a v b w) ∧
      heatmap_block f y rs = some (heatmap_data f y rs) ∧
      top_block f y m rs
        = some (top_regions (region_sums (df_selected f y m) rs) 5)) := by
  cases rs with
  | nil =>
    exact ⟨fun h => MetricsOutcome.noConfusion h,
      fun _ => ⟨rfl, rfl, rfl⟩, fun hne => absurd rfl hne⟩
  | cons c rest =>
    refine ⟨?_, fun h => List.noConfusion h, fun _ => ⟨⟨_, _, _, _, rfl⟩, rfl, rfl⟩⟩
    intro hcontra
    exact MetricsOutcome.noConfusion hcontra

/-- Witness for C9: with no region selected all three blocks give the
advisory or absent outcome; with regions A, B, C selected the metrics block
gives computed metrics and never the fault. -/
theorem C9_empty_region_guard_witness :
    key_metrics exRankFrame 2025 3 [] = MetricsOutcome.advisory ∧
    heatmap_block exRankFrame 2025 [] = none ∧
    top_block exRankFrame 2025 3 [] = none ∧
    key_metrics exRankFrame 2025 3 ["A", "B", "C"] ≠ MetricsOutcome.fault ∧
    (∃ a v b w, key_metrics exRankFrame 2025 3 ["A", "B", "C"]
        = MetricsOutcome.metrics a v b w) := by
  have h0 := C9_empty_region_guard exRankFrame 2025 3 []
  have h1 := C9_empty_region_guard exRankFrame 2025 3 ["A", "B", "C"]
  exact ⟨(h0.2.1 rfl).1, (h0.2.1 rfl).2.1, (h0.2.1 rfl).2.2, h1.1,
    (h1.2.2 (by decide)).1⟩

theorem sum_take_getD (L : List Int) (k : Nat) (hk : k < L.length) :
    (L.take (k + 1)).sum = (L.take k).sum + L.getD k 0 := by
  rw [List.take_succ, List.sum_append]
  congr 1
  rw [List.getD_eq_getElem?_getD, List.getElem?_eq_getElem hk]
  simp

theorem monthly_total_entry (f : Frame) (y : Int) (hT : f.hasTotal = true)
    (hS : ∀ r ∈ f.rows, r.year = y → r.total ≠ none) (i : Nat) (hi : i < 12) :
    (monthly_total f y).getD i (0, 0)
      = (((i : Int) + 1), specMonthSum f y ((i : Int) + 1)) := by
  rw [monthly_total, reindex12_getD _ i hi, lookup_groupby,
    monthSum_ensure_slice f y hT hS]

theorem monthly_total_snd_getD (f : Frame) (y : Int) (i : Nat) (hi : i < 12) :
    ((monthly_total f y).map Prod.snd).getD i 0
      = ((monthly_total f y).getD i (0, 0)).2 := by
  have hlen : i < (monthly_total f y).length := by
    rw [monthly_total, reindex12_length]; exact hi
  rw [List.getD_eq_getElem?_getD, List.getD_eq_getElem?_getD, List.getElem?_map,
    List.getElem?_eq_getElem hlen]
  rfl

theorem range12_map_getD (g : Nat → Int) (i : Nat) (hi : i < 12) :
    ((List.range 12).map g).getD i 0 = g i := by
  rw [List.getD_eq_getElem?_getD, List.getElem?_map, List.getElem?_range hi]
  rfl

/-- Claim C10: Duplicate year-month tolerance: on a dataset containing at
least two rows with the selected (year, month), every aggregation is total
and sums across the duplicate rows rather than failing, overwriting or
picking one row: the selected-month total, the month entry of the monthly
series, the month contribution to the YTD sum, the per-region sums of the
selection, and the heatmap cells of that month all equal the corresponding
sums over all matching rows. -/
theorem C10_duplicate_tolerance (f : Frame) (y m : Int)
    (hdup : 2 ≤ (matchRows f y m).length)
    (hT : f.hasTotal = true)
    (hS : ∀ r ∈ f.rows, r.year = y → r.total ≠ none)
    (h1 : 1 ≤ m) (h2 : m ≤ 12) :
    total_cases f y m = sumTotals (matchRows f y m) ∧
    (monthly_total f y).getD (m - 1).toNat (0, 0)
      = (m, sumTotals (matchRows f y m)) ∧
    ytd f y m - ytd f y (m - 1) = sumTotals (matchRows f y m) ∧
    (∀ rs : List String,
      region_sums (df_selected f y m) rs
        = rs.map (fun c =>
            (c, ((matchRows f y m).map (fun r => (r.val c).getD 0)).sum))) ∧
    (∀ rs : List String, ∀ p ∈ heatmap_data f y rs,
      p.2.getD (m - 1).toNat 0
        = ((matchRows f y m).map (fun r => (r.val p.1).getD 0)).sum) := by
  have hnonempty : (matchRows f y m).isEmpty = false := by
    rcases hx : matchRows f y m with _ | _
    · rw [hx] at hdup
      simp at hdup
    · rfl
  have hsel : df_selected f y m = matchRows f y m := by
    simp [df_selected, hnonempty]
  have hidx : (m - 1).toNat < 12 := by omega
  have hm : ((((m - 1).toNat : Nat) : Int) + 1) = m := by omega
  refine ⟨?_, ?_, ?_, ?_, ?_⟩
  · rw [total_cases, hsel]
  · rw [monthly_total_entry f y hT hS _ hidx, hm]
    rfl
  · rw [ytd_eq_take f y m, ytd_eq_take f y (m - 1)]
    have hsucc : m.toNat = (m - 1).toNat + 1 := by omega
    have hlen2 : (m - 1).toNat < ((monthly_total f y).map Prod.snd).length := by
      rw [List.length_map, monthly_total, reindex12_length]
      omega
    rw [hsucc, sum_take_getD _ _ hlen2, monthly_total_snd_getD f y _ hidx,
      monthly_total_entry f y hT hS _ hidx, hm]
    exact add_sub_cancel_left _ _
  · intro rs
    rw [hsel]
    rfl
  · intro rs p hp
    simp only [heatmap_data, List.mem_map] at hp
    obtain ⟨c, hc, hpc⟩ := hp
    rw [← hpc]
    show ((List.range 12).map
        (fun (i : Nat) =>
          heatmap_cell (ensure_total_col (filterYear f y)).rows c ((i : Int) + 1))).getD
        (m - 1).toNat 0
      = ((matchRows f y m).map (fun r => (r.val c).getD 0)).sum
    rw [range12_map_getD _ _ hidx, hm, heatmap_cell_ensure]
    rfl

/-- Witness for C10: on the dataset with two rows for 2024-03 (totals 3 and
4, region A values 1 and 4, region B values 2 and NaN) the selected-month
total is the duplicate sum 7, the region sums are A 5 and B 2, and the
month-3 series entry is (3, 7). -/
theorem C10_duplicate_tolerance_witness :
    total_cases exDupFrame 2024 3 = sumTotals (matchRows exDupFrame 2024 3) ∧
    total_cases exDupFrame 2024 3 = 7 ∧
    region_sums (df_selected exDupFrame 2024 3) ["A", "B"]
      = [("A", 5), ("B", 2)] ∧
    (monthly_total exDupFrame 2024).getD 2 (0, 0) = (3, 7) := by
  have h := C10_duplicate_tolerance exDupFrame 2024 3 (by decide) rfl (by decide)
    (by decide) (by decide)
  exact ⟨h.1, by decide, by decide, by decide⟩

end LivestockStat
